import Mathlib

/-!
A shallow embedding of the universal-analytics visitor library
(`src/index.ts`): hit queueing, batch planning, dispatch and the
surrounding parameter pipeline, with the process-global mutable
configuration and the external collaborators (uuid generator, url host
parser, query-string codec, HTTP transport) modelled as explicit oracle
inputs.
-/

namespace UA

/-- A JavaScript value as it flows through the parameter pipeline: a
string, or the null/undefined family (both are deleted by
`tidyParameters` and both are falsy). -/
inductive JSVal where
  | str (s : String)
  | nullv
  deriving DecidableEq, Repr

/-- Truthiness of a `JSVal` (`""`, `null` and `undefined` are falsy). -/
def JSVal.truthy : JSVal → Bool
  | .str s => s != ""
  | .nullv => false

/-- The JavaScript `a || b`. -/
def jsOr (a b : JSVal) : JSVal :=
  if a.truthy then a else b

/-- Reading an optional (possibly absent) field of an options object. -/
def optToVal : Option String → JSVal
  | some s => .str s
  | none => .nullv

/-- A JavaScript object as an insertion-ordered association list
(`ArbitraryParams` in the source). -/
abbrev Obj := List (String × JSVal)

/-- Property read `o[k]`: the first entry with key `k`, `undefined` when
the key is absent. -/
def objGet : Obj → String → JSVal
  | [], _ => .nullv
  | p :: rest, k => if p.1 = k then p.2 else objGet rest k

/-- Key-membership test (`k in o`). -/
def objHas : Obj → String → Bool
  | [], _ => false
  | p :: rest, k => p.1 == k || objHas rest k

/-- Property write `o[k] = v`: updates the entry in place when the key
exists (a JS object never holds a key twice), appends it otherwise. -/
def objSet (o : Obj) (k : String) (v : JSVal) : Obj :=
  if objHas o k then o.map (fun p => if p.1 = k then (k, v) else p)
  else o ++ [(k, v)]

/-- `Object.assign(target, source)`: copy the source's entries onto the
target in iteration order (entries whose value is `undefined` are
copied too). -/
def objAssign (target source : Obj) : Obj :=
  source.foldl (fun acc p => objSet acc p.1 p.2) target

/-- The keys of an object are pairwise distinct.  Every object a JS
program can build has this property; the caller-supplied objects
(params, persistent params, context) are assumed to satisfy it where a
theorem needs it. -/
def KeysNodup (o : Obj) : Prop :=
  (o.map Prod.fst).Nodup

/-- Modelled from the spec: the module `./config` imported by
`src/index.ts` is not part of `src/`.  Per the spec it is the
process-wide configuration the library reads and mutates: collector
hostname, single-hit and batch paths, the batching policy (enabled flag
and positive batch size), the wire protocol version, and the static
parameter-name translation table (§2, §3 BatchingPolicy, §4.1, §6). -/
structure Config where
  hostname : String
  path : String
  batchPath : String
  batching : Bool
  batchSize : Nat
  protocolVersion : String
  parametersMap : List (String × String)
  deriving DecidableEq, Repr

/-- The recognized construction options (`VisitorOptions` in the
source).  `requestOptions` is an opaque transport passthrough and the
`debug`/`strictCidFormat` flags are never read by the code under
`src/`, so they are not modelled. -/
structure VisitorOptions where
  tid : Option String := none
  cid : Option String := none
  uid : Option String := none
  hostname : Option String := none
  path : Option String := none
  https : Option Bool := none
  enableBatching : Option Bool := none
  batchSize : Option Nat := none
  headers : Option Obj := none
  deriving DecidableEq, Repr

/-- Program state outside any single visitor: the shared mutable config,
the allocated queue and persistent-params objects (JS arrays and
objects live on a heap and are shared by reference), and the external
collaborators — `uuid.v4` as a stream of generated identifiers and
`url.parse(·).host` as a pure function. -/
structure State where
  config : Config
  urlHost : String → String
  uuidGen : Nat → String
  uuidCount : Nat
  queues : List (List Obj)
  paramStores : List Obj

/-- A visitor instance: its options, its own context, heap references
for the queue and persistent-params objects it shares with the visitors
it derives, and the identity triple fixed by the constructor. -/
structure Visitor where
  options : VisitorOptions
  context : Obj
  ppRef : Nat
  queueRef : Nat
  tid : JSVal
  cid : JSVal
  uid : JSVal
  deriving DecidableEq, Repr

/-- The four `if (options.x != null) config.x = options.x` writes at the
top of the constructor. -/
def applyOptionsToConfig (options : VisitorOptions) (cfg : Config) : Config :=
  { cfg with
    hostname := options.hostname.getD cfg.hostname
    path := options.path.getD cfg.path
    batching := options.enableBatching.getD cfg.batching
    batchSize := options.batchSize.getD cfg.batchSize }

/-- The `Visitor` constructor.  `ppRef?`/`queueRef?` are `none` when the
corresponding TS default parameter value (`{}` / `[]`) applies, in
which case a fresh heap object is allocated.  The body writes the
endpoint and batching options into the global config, re-resolves
`config.hostname` through the protocol and `url.parse(·).host`, and
fixes the identity triple, invoking `uuid.v4()` exactly when
`options.cid` is falsy.  (The `if (!options)` branch is unreachable
from `init`/`withContext`, which always pass an options object.) -/
def constructVisitor (options : VisitorOptions) (context : Obj)
    (ppRef? queueRef? : Option Nat) (s : State) : Visitor × State :=
  let ppRef := ppRef?.getD s.paramStores.length
  let paramStores := match ppRef? with
    | some _ => s.paramStores
    | none => s.paramStores ++ [[]]
  let queueRef := queueRef?.getD s.queues.length
  let queues := match queueRef? with
    | some _ => s.queues
    | none => s.queues ++ [[]]
  let cfg0 := applyOptionsToConfig options s.config
  let protocol := if options.https = some false then "http" else "https"
  let cfg := { cfg0 with hostname := protocol ++ "://" ++ s.urlHost cfg0.hostname }
  let useFresh := match options.cid with
    | some c => c == ""
    | none => true
  let cid := if useFresh then JSVal.str (s.uuidGen s.uuidCount) else optToVal options.cid
  (⟨options, context, ppRef, queueRef, optToVal options.tid, cid, optToVal options.uid⟩,
   ⟨cfg, s.urlHost, s.uuidGen, if useFresh then s.uuidCount + 1 else s.uuidCount,
    queues, paramStores⟩)

/-- `init(options)`: construct a root visitor (fresh context,
persistent-params object and queue). -/
def init (options : VisitorOptions) (s : State) : Visitor × State :=
  constructVisitor options [] none none s

/-- `withContext(context)`: derive a visitor that shares `this.options`,
`this.persistentParams` and `this.queue` with its parent. -/
def withContext (v : Visitor) (context : Obj) (s : State) : Visitor × State :=
  constructVisitor v.options context (some v.ppRef) (some v.queueRef) s

/-- The translation table lookup applied to one key: renamed when the
table knows it, passed through otherwise. -/
def renameKey (cfg : Config) (key : String) : String :=
  match cfg.parametersMap.find? (fun m => m.1 == key) with
  | some m => m.2
  | none => key

/-- `translateParams`: rebuild the object in iteration order, renaming
each key through the table. -/
def translateParams (cfg : Config) (params : Obj) : Obj :=
  params.foldl (fun acc p => objSet acc (renameKey cfg p.1) p.2) []

/-- `tidyParameters`: delete every key whose value is null/undefined. -/
def tidyParameters (params : Obj) : Obj :=
  params.filter (fun p => p.2 ≠ JSVal.nullv)

/-- The hit exactly as `enqueue` appends it: the translated caller
params with the defaults object `{v, tid, cid, uid, t}` assigned over
them.  `Object.assign` copies `undefined`-valued identity fields too. -/
def enqueuedHit (cfg : Config) (v : Visitor) (t : String) (p : Obj) : Obj :=
  objSet (objSet (objSet (objSet (objSet (translateParams cfg p)
    "v" (JSVal.str cfg.protocolVersion)) "tid" v.tid) "cid" v.cid) "uid" v.uid)
    "t" (JSVal.str t)

/-- `enqueue`: push the hit onto the shared queue and return `this`.
(The optional callback argument, which would merely trigger `send`
right after the push, is not modelled; every claim drives `send`
explicitly.) -/
def enqueue (v : Visitor) (t : String) (p : Obj) (s : State) : Visitor × State :=
  let newQueue := (s.queues.getD v.queueRef []) ++ [enqueuedHit s.config v t p]
  (v, { s with queues := s.queues.set v.queueRef newQueue })

/-- The argument object of `pageview`. -/
structure PageviewOpts where
  path : String
  hostname : Option String := none
  title : Option String := none
  params : Option Obj := none
  deriving DecidableEq, Repr

/-- The parameter object `pageview` builds before enqueueing:
`Object.assign({}, persistentParams, o.params)`, then the unconditional
writes `dp = o.path || context.dp`, `dh = o.hostname || context.dh` and
`dt = o.title || context.dt`, then `tidyParameters`. -/
def pageviewPre (v : Visitor) (o : PageviewOpts) (pp : Obj) : Obj :=
  let m := objAssign (objAssign [] pp) (o.params.getD [])
  let m := objSet m "dp" (jsOr (JSVal.str o.path) (objGet v.context "dp"))
  let m := objSet m "dh" (jsOr (optToVal o.hostname) (objGet v.context "dh"))
  let m := objSet m "dt" (jsOr (optToVal o.title) (objGet v.context "dt"))
  tidyParameters m

/-- The parameter object of `pageview` before `tidyParameters` runs,
written out: the merge base with the three unconditional writes.
Definitionally equal to the object `pageviewPre` tidies. -/
def pageviewRaw (v : Visitor) (o : PageviewOpts) (pp : Obj) : Obj :=
  objSet (objSet (objSet (objAssign (objAssign [] pp) (o.params.getD []))
    "dp" (jsOr (JSVal.str o.path) (objGet v.context "dp")))
    "dh" (jsOr (optToVal o.hostname) (objGet v.context "dh")))
    "dt" (jsOr (optToVal o.title) (objGet v.context "dt"))

/-- `pageview`: build the tidied params from the shared persistent
params and enqueue them through the context-derived view
`this.withContext(o.params)`. -/
def pageview (v : Visitor) (o : PageviewOpts) (s : State) : Visitor × State :=
  let tidied := pageviewPre v o (s.paramStores.getD v.ppRef [])
  let vc := withContext v (o.params.getD []) s
  enqueue vc.1 "pageview" tidied vc.2

/-- The single hit a `pageview` call appends to the shared queue. -/
def pageviewHit (v : Visitor) (o : PageviewOpts) (s : State) : Obj :=
  enqueuedHit (withContext v (o.params.getD []) s).2.config
    (withContext v (o.params.getD []) s).1 "pageview"
    (pageviewPre v o (s.paramStores.getD v.ppRef []))

/-- `reset()`: clears only the context. -/
def reset (v : Visitor) : Visitor :=
  { v with context := [] }

/-- `set(key, value)`: mutate the shared persistent-params object in
place. -/
def set (v : Visitor) (key : String) (value : JSVal) (s : State) : State :=
  let newStore := objSet (s.paramStores.getD v.ppRef []) key value
  { s with paramStores := s.paramStores.set v.ppRef newStore }

/-- A dispatch unit as typed in the source
(`ArbitraryParams | ArbitraryParamsBatch`): with batching disabled each
task is a single plain hit object, with batching enabled an array of
hits. -/
inductive Task where
  | single (hit : Obj)
  | batch (hits : List Obj)
  deriving DecidableEq, Repr

/-- The hits a dispatch unit carries. -/
def taskHits : Task → List Obj
  | .single h => [h]
  | .batch hs => hs

/-- `getNextSendBatch`: `queue.splice(0, Math.min(queue.length,
config.batchSize))`, as (removed, remaining queue). -/
def getNextSendBatch (cfg : Config) (q : List Obj) : List Obj × List Obj :=
  let maxBatchSize := min q.length cfg.batchSize
  (q.take maxBatchSize, q.drop maxBatchSize)

/-- The `for (let i = 0; i < nBuckets; i++) q.push(getNextSendBatch())`
loop, driven by the number of iterations. -/
def batchBuckets (cfg : Config) : Nat → List Obj → List (List Obj) × List Obj
  | 0, q => ([], q)
  | n + 1, q =>
    let b := getNextSendBatch cfg q
    let bs := batchBuckets cfg n b.2
    (b.1 :: bs.1, bs.2)

/-- `Math.ceil(len / b)` on naturals.  It agrees with JS for `b > 0`;
for `b = 0` and `len > 0` the JS expression is `Infinity` and the
source's bucket loop would never terminate, so every theorem touching
the batching path assumes a positive batch size, which the spec demands
of `BatchingPolicy` anyway. -/
def jsCeil (len b : Nat) : Nat :=
  (len + b - 1) / b

/-- `getSendTaskQueue`: drain the queue into dispatch units — everything
at once (one unit per hit) when batching is disabled, otherwise
`Math.ceil(len / batchSize)` buckets with empty buckets filtered out.
Returns the units together with the drained queue. -/
def getSendTaskQueue (cfg : Config) (q : List Obj) : List Task × List Obj :=
  if !cfg.batching then
    (q.map Task.single, [])
  else
    let r := batchBuckets cfg (jsCeil q.length cfg.batchSize) q
    ((r.1.filter (fun b => b.length > 0)).map Task.batch, r.2)

/-- `getBody` with the query-string codec as an oracle: joins the
per-hit encodings of a batch with `\n`.  With batching disabled the
task is a plain object and `params.map(...)` — the `@ts-ignore`'d line —
throws a TypeError, modelled as the thrown message. -/
def getBody (qsEncode : Obj → String) : Task → Except String String
  | .single _ => .error "params.map is not a function"
  | .batch hits => .ok (String.intercalate "\n" (hits.map qsEncode))

/-- The error of a body computation, if it threw. -/
def exceptErr : Except String String → Option String
  | .error m => some m
  | .ok _ => none

/-- The body, if the computation succeeded. -/
def exceptOk : Except String String → Option String
  | .ok b => some b
  | .error _ => none

/-- One issued HTTP POST. -/
structure Post where
  url : String
  body : String
  headers : Obj
  deriving DecidableEq, Repr

/-- The observable outcome of one `send` call: the POSTs issued and the
`(error, count)` pair passed to the completion callback (which every
control path of `send` invokes exactly once). -/
structure SendResult where
  posts : List Post
  cbError : Option String
  cbCount : Nat
  deriving DecidableEq, Repr

/-- The transport callbacks firing in completion order: each increments
`count` whether or not it carries an error (`count++` sits after the
`if (err) reject(err)`), and at the first error the rejection's
microtask — the `catch` block — runs before any further network
callback can fire, reading `count` at that instant. -/
def processCallbacks (errOf : Nat → Option String) : List Nat → Nat → Option String × Nat
  | [], count => (none, count)
  | i :: rest, count =>
    match errOf i with
    | some msg => (some msg, count + 1)
    | none => processCallbacks errOf rest (count + 1)

/-- `send`, with the transport as oracles: `errOf i` is the error the
POST for unit `i` (in planning order) calls back with, and `order` is
the temporal order in which the network callbacks fire.  The queue is
drained synchronously first; with an empty plan the callback fires
immediately as `(null, 0)`; the task executors then run synchronously
in order, so a task whose body computation throws issues no POST and
the first such thrown error reaches the `catch` before any network
callback has run. -/
def send (qsEncode : Obj → String) (errOf : Nat → Option String) (order : List Nat)
    (v : Visitor) (s : State) : SendResult × State :=
  let q := s.queues.getD v.queueRef []
  let plan := getSendTaskQueue s.config q
  let s' := { s with queues := s.queues.set v.queueRef plan.2 }
  if plan.1.length = 0 then
    ({ posts := [], cbError := none, cbCount := 0 }, s')
  else
    let pathFragment := if s.config.batching then s.config.batchPath else s.config.path
    let url := s.config.hostname ++ pathFragment
    let bodies := plan.1.map (getBody qsEncode)
    let posts := bodies.filterMap
      (fun b => (exceptOk b).map (fun body => Post.mk url body (v.options.headers.getD [])))
    match bodies.findSome? exceptErr with
    | some msg => ({ posts := posts, cbError := some msg, cbCount := 0 }, s')
    | none =>
      let r := processCallbacks errOf order 0
      ({ posts := posts, cbError := r.1, cbCount := r.2 }, s')

/-- A concrete configuration for concrete runs (the shape the spec
describes: a collector host, a single-hit path, a batch path, a
translation table). -/
def sampleConfig : Config :=
  { hostname := "https://www.google-analytics.com"
    path := "/collect"
    batchPath := "/batch"
    batching := true
    batchSize := 20
    protocolVersion := "1"
    parametersMap := [("documentPath", "dp")] }

/-- A concrete stand-in for `url.parse(·).host` on the hostnames the
concrete runs use. -/
def sampleUrlHost (s : String) : String :=
  if s = "https://www.google-analytics.com" then "www.google-analytics.com"
  else if s = "https://example.org" then "example.org"
  else s

/-- A concrete initial state: sample config, a deterministic uuid
stream, nothing allocated yet. -/
def sampleState : State :=
  { config := sampleConfig
    urlHost := sampleUrlHost
    uuidGen := fun n => "uuid-" ++ toString n
    uuidCount := 0
    queues := []
    paramStores := [] }

/-- A concrete query-string codec for concrete runs: `k=v` pairs joined
by `&` (percent-encoding, which the spec leaves to the collaborator, is
not needed on these inputs). -/
def sampleEncode : Obj → String :=
  fun o => String.intercalate "&"
    (o.map (fun p => p.1 ++ "=" ++ (match p.2 with | JSVal.str s => s | JSVal.nullv => "")))

/-- A transport oracle under which every POST succeeds. -/
def noErr : Nat → Option String :=
  fun _ => none

/-- A batching config with batch size two, for concrete runs. -/
def c2Cfg : Config :=
  { sampleConfig with batchSize := 2 }

/-- Five concrete queued hits. -/
def c2Queue : List Obj :=
  [[("n", JSVal.str "1")], [("n", JSVal.str "2")], [("n", JSVal.str "3")],
   [("n", JSVal.str "4")], [("n", JSVal.str "5")]]

/-- A concrete state holding three queued hits under batch size two. -/
def c4State : State :=
  { config := { sampleConfig with batchSize := 2 }
    urlHost := sampleUrlHost
    uuidGen := fun n => "uuid-" ++ toString n
    uuidCount := 1
    queues := [c2Queue.take 3]
    paramStores := [[]] }

/-- A concrete visitor owning queue 0 of `c4State`. -/
def c4Visitor : Visitor :=
  { options := {}
    context := []
    ppRef := 0
    queueRef := 0
    tid := JSVal.nullv
    cid := JSVal.str "uuid-0"
    uid := JSVal.nullv }

/-- A transport oracle under which the POST for unit 1 fails. -/
def c4ErrOf : Nat → Option String :=
  fun i => if i = 1 then some "boom" else none

/-- A root visitor constructed with no options, and the state after its
construction. -/
def rootVisitor : Visitor :=
  (init {} sampleState).1

/-- The program state right after `rootVisitor` was constructed. -/
def rootState : State :=
  (init {} sampleState).2

/-- A plain pageview call. -/
def pvHome : PageviewOpts :=
  { path := "/home" }

/-- The spec's pageview scenario: named fields plus params with two
null/absent values and one real value. -/
def c5Opts : PageviewOpts :=
  { path := "/home"
    hostname := some "example.com"
    title := some "Home"
    params := some [("x", JSVal.nullv), ("y", JSVal.nullv), ("z", JSVal.str "v")] }

/-- Construction options carrying a full identity. -/
def idOptions : VisitorOptions :=
  { tid := some "UA-1", uid := some "u9" }

/-- A root visitor with tid and uid configured, and its state. -/
def idVisitor : Visitor :=
  (init idOptions sampleState).1

/-- The program state right after `idVisitor` was constructed. -/
def idState : State :=
  (init idOptions sampleState).2

/-- A pageview whose params supply `dh` while the hostname named field
is not supplied. -/
def c6Opts : PageviewOpts :=
  { path := "/p", params := some [("dh", JSVal.str "example.org")] }

/-- Construction options disabling batching. -/
def c3Options : VisitorOptions :=
  { enableBatching := some false }

/-- A root visitor constructed with batching disabled. -/
def c3Visitor : Visitor :=
  (init c3Options sampleState).1

/-- The heap after pushing the hit `{first: "123"}` straight onto the
visitor's queue, as the repository's send test does. -/
def c3Queues : List (List Obj) :=
  (init c3Options sampleState).2.queues.set c3Visitor.queueRef [[("first", JSVal.str "123")]]

/-- The state for the unbatched round-trip scenario. -/
def c3State : State :=
  { (init c3Options sampleState).2 with queues := c3Queues }

/-- Options of a first visitor: batching on, batch size two. -/
def c10Options1 : VisitorOptions :=
  { enableBatching := some true, batchSize := some 2 }

/-- Options of a second visitor: a different endpoint and batch size. -/
def c10Options2 : VisitorOptions :=
  { hostname := some "https://example.org"
    path := some "/p2"
    enableBatching := some true
    batchSize := some 1 }

/-- The first visitor. -/
def c10V1 : Visitor :=
  (init c10Options1 sampleState).1

/-- The state after the first visitor enqueued two hits. -/
def c10StateQueued : State :=
  (enqueue c10V1 "pageview" [] (enqueue c10V1 "pageview" [] (init c10Options1 sampleState).2).2).2

/-- The state after a second visitor was merely constructed. -/
def c10StateAfterV2 : State :=
  (init c10Options2 c10StateQueued).2

/-! ### Lemmas about the object operations -/

theorem objHas_eq_false_iff (o : Obj) (k : String) :
    objHas o k = false ↔ ∀ p ∈ o, p.1 ≠ k := by
  induction o with
  | nil => simp [objHas]
  | cons p rest ih => simp [objHas, ih]

theorem objGet_eq_nullv_of_not_has (o : Obj) (k : String) (h : objHas o k = false) :
    objGet o k = JSVal.nullv := by
  induction o with
  | nil => rfl
  | cons p rest ih =>
    have hp : p.1 ≠ k := ((objHas_eq_false_iff _ _).mp h) p (List.mem_cons_self p rest)
    have hr : objHas rest k = false := by
      rw [objHas_eq_false_iff]
      exact fun q hq => ((objHas_eq_false_iff _ _).mp h) q (List.mem_cons_of_mem p hq)
    simp [objGet, hp, ih hr]

theorem objHas_of_get_ne (o : Obj) (k : String) (h : objGet o k ≠ JSVal.nullv) :
    objHas o k = true := by
  cases hh : objHas o k with
  | false => exact absurd (objGet_eq_nullv_of_not_has o k hh) h
  | true => rfl

theorem objGet_map_replace (o : Obj) (k : String) (v : JSVal) (h : objHas o k = true) :
    objGet (o.map (fun p => if p.1 = k then (k, v) else p)) k = v := by
  induction o with
  | nil => simp [objHas] at h
  | cons p rest ih =>
    by_cases hp : p.1 = k
    · simp [objGet, hp]
    · have hr : objHas rest k = true := by simpa [objHas, hp] using h
      simp [objGet, hp, ih hr]

theorem objGet_append_new (o : Obj) (k : String) (v : JSVal) (h : objHas o k = false) :
    objGet (o ++ [(k, v)]) k = v := by
  induction o with
  | nil => simp [objGet]
  | cons p rest ih =>
    have hp : p.1 ≠ k := ((objHas_eq_false_iff _ _).mp h) p (List.mem_cons_self p rest)
    have hr : objHas rest k = false := by
      rw [objHas_eq_false_iff]
      exact fun q hq => ((objHas_eq_false_iff _ _).mp h) q (List.mem_cons_of_mem p hq)
    simp [objGet, hp, ih hr]

theorem objGet_objSet_self (o : Obj) (k : String) (v : JSVal) :
    objGet (objSet o k v) k = v := by
  by_cases h : objHas o k = true
  · unfold objSet
    rw [if_pos h]
    exact objGet_map_replace o k v h
  · unfold objSet
    rw [if_neg h]
    exact objGet_append_new o k v (Bool.eq_false_iff.mpr h)

theorem objGet_map_replace_ne (o : Obj) (k : String) (v : JSVal) (k' : String)
    (hne : k' ≠ k) :
    objGet (o.map (fun p => if p.1 = k then (k, v) else p)) k' = objGet o k' := by
  induction o with
  | nil => rfl
  | cons p rest ih =>
    by_cases hp : p.1 = k
    · have hkk : ¬(k = k') := fun e => hne e.symm
      simp [objGet, hp, hkk, ih]
    · by_cases hp' : p.1 = k'
      · simp [objGet, hp, hp', hne]
      · simp [objGet, hp, hp', ih]

theorem objGet_append_single_ne (o : Obj) (k : String) (v : JSVal) (k' : String)
    (hne : k' ≠ k) :
    objGet (o ++ [(k, v)]) k' = objGet o k' := by
  induction o with
  | nil =>
    have hkk : ¬(k = k') := fun e => hne e.symm
    simp [objGet, hkk]
  | cons p rest ih =>
    by_cases hp : p.1 = k' <;> simp [objGet, hp, ih]

theorem objGet_objSet_ne (o : Obj) (k : String) (v : JSVal) (k' : String)
    (hne : k' ≠ k) :
    objGet (objSet o k v) k' = objGet o k' := by
  by_cases h : objHas o k = true
  · unfold objSet
    rw [if_pos h]
    exact objGet_map_replace_ne o k v k' hne
  · unfold objSet
    rw [if_neg h]
    exact objGet_append_single_ne o k v k' hne

theorem mem_objSet (o : Obj) (k : String) (v : JSVal) (pr : String × JSVal)
    (h : pr ∈ objSet o k v) :
    (pr ∈ o ∧ pr.1 ≠ k) ∨ pr = (k, v) := by
  by_cases hh : objHas o k = true
  · unfold objSet at h
    rw [if_pos hh] at h
    rcases List.mem_map.mp h with ⟨p, hp, he⟩
    by_cases hpk : p.1 = k
    · right
      simp only [hpk, if_true] at he
      exact he.symm
    · left
      simp only [hpk, if_false] at he
      exact ⟨he ▸ hp, he ▸ hpk⟩
  · unfold objSet at h
    rw [if_neg hh] at h
    rcases List.mem_append.mp h with hmem | hmem
    · exact Or.inl ⟨hmem, ((objHas_eq_false_iff _ _).mp (Bool.eq_false_iff.mpr hh)) pr hmem⟩
    · exact Or.inr (by simpa using hmem)

theorem mem_objSet_values (o : Obj) (k : String) (v : JSVal) (P : JSVal → Prop)
    (ho : ∀ p ∈ o, P p.2) (hv : P v) :
    ∀ p ∈ objSet o k v, P p.2 := by
  intro p hp
  rcases mem_objSet o k v p hp with ⟨hmem, _⟩ | he
  · exact ho p hmem
  · rw [he]
    exact hv

theorem objSet_key_eq (o : Obj) (k : String) (v : JSVal) :
    ∀ pr ∈ objSet o k v, pr.1 = k → pr.2 = v := by
  intro pr hpr hk
  rcases mem_objSet o k v pr hpr with ⟨_, hne⟩ | he
  · exact absurd hk hne
  · rw [he]

theorem objAssign_get_not_contrib (t src : Obj) (k : String)
    (h : ∀ p ∈ src, p.1 ≠ k) :
    objGet (objAssign t src) k = objGet t k := by
  induction src generalizing t with
  | nil => rfl
  | cons p rest ih =>
    have hstep : objAssign t (p :: rest) = objAssign (objSet t p.1 p.2) rest := rfl
    rw [hstep, ih (objSet t p.1 p.2) (fun q hq => h q (List.mem_cons_of_mem p hq))]
    exact objGet_objSet_ne t p.1 p.2 k (fun e => h p (List.mem_cons_self p rest) e.symm)

theorem keysNodup_cons (p : String × JSVal) (rest : Obj) :
    KeysNodup (p :: rest) ↔ (∀ q ∈ rest, q.1 ≠ p.1) ∧ KeysNodup rest := by
  simp only [KeysNodup, List.map_cons, List.nodup_cons, List.mem_map]
  constructor
  · rintro ⟨h1, h2⟩
    exact ⟨fun q hq he => h1 ⟨q, hq, he⟩, h2⟩
  · rintro ⟨h1, h2⟩
    refine ⟨?_, h2⟩
    rintro ⟨q, hq, he⟩
    exact h1 q hq he

theorem objAssign_get (t src : Obj) (k : String) (hnd : KeysNodup src) :
    objGet (objAssign t src) k
      = if objHas src k then objGet src k else objGet t k := by
  induction src generalizing t with
  | nil => simp [objAssign, objHas]
  | cons p rest ih =>
    rcases (keysNodup_cons p rest).mp hnd with ⟨hne, hndr⟩
    have hstep : objAssign t (p :: rest) = objAssign (objSet t p.1 p.2) rest := rfl
    rw [hstep]
    by_cases hp : p.1 = k
    · have hrest : ∀ q ∈ rest, q.1 ≠ k := fun q hq e => hne q hq (e.trans hp.symm)
      rw [objAssign_get_not_contrib _ _ _ hrest, hp, objGet_objSet_self]
      simp [objHas, objGet, hp]
    · rw [ih (objSet t p.1 p.2) hndr]
      cases hhas : objHas rest k with
      | true => simp [objHas, objGet, hp, hhas]
      | false =>
        rw [objGet_objSet_ne t p.1 p.2 k (fun e => hp e.symm)]
        simp [objHas, objGet, hp, hhas]

theorem tidy_values (o : Obj) :
    ∀ p ∈ tidyParameters o, p.2 ≠ JSVal.nullv := by
  intro p hp
  have h := List.mem_filter.mp hp
  simpa using h.2

theorem tidy_cons (p : String × JSVal) (rest : Obj) :
    tidyParameters (p :: rest)
      = if p.2 ≠ JSVal.nullv then p :: tidyParameters rest else tidyParameters rest := by
  by_cases hv : p.2 = JSVal.nullv
  · simp [tidyParameters, List.filter_cons, hv]
  · simp [tidyParameters, List.filter_cons, hv]

theorem tidy_get_of_ne (o : Obj) (k : String) (h : objGet o k ≠ JSVal.nullv) :
    objGet (tidyParameters o) k = objGet o k := by
  induction o with
  | nil => rfl
  | cons p rest ih =>
    rw [tidy_cons]
    by_cases hp : p.1 = k
    · have hv : p.2 ≠ JSVal.nullv := fun e => h (by simp [objGet, hp, e])
      rw [if_pos hv]
      simp [objGet, hp]
    · have h' : objGet rest k ≠ JSVal.nullv := by simpa [objGet, hp] using h
      by_cases hv : p.2 = JSVal.nullv
      · rw [if_neg (not_not_intro hv), ih h']
        simp [objGet, hp]
      · rw [if_pos hv]
        simp [objGet, hp, ih h']

theorem tidy_no_key (o : Obj) (k : String)
    (h : ∀ p ∈ o, p.1 = k → p.2 = JSVal.nullv) :
    objHas (tidyParameters o) k = false := by
  rw [objHas_eq_false_iff]
  intro p hp hk
  have hm := List.mem_filter.mp hp
  have hv : p.2 ≠ JSVal.nullv := by simpa using hm.2
  exact hv (h p hm.1 hk)

theorem tidy_get_nullv (o : Obj) (k : String)
    (h : ∀ p ∈ o, p.1 = k → p.2 = JSVal.nullv) :
    objGet (tidyParameters o) k = JSVal.nullv :=
  objGet_eq_nullv_of_not_has _ _ (tidy_no_key o k h)

theorem map_replace_keys (o : Obj) (k : String) (v : JSVal) :
    (o.map (fun p => if p.1 = k then (k, v) else p)).map Prod.fst = o.map Prod.fst := by
  induction o with
  | nil => rfl
  | cons p rest ih =>
    by_cases hp : p.1 = k <;> simp [hp, ih]

theorem keysNodup_objSet (o : Obj) (k : String) (v : JSVal) (h : KeysNodup o) :
    KeysNodup (objSet o k v) := by
  by_cases hh : objHas o k = true
  · unfold KeysNodup objSet
    rw [if_pos hh, map_replace_keys]
    exact h
  · unfold KeysNodup objSet
    rw [if_neg hh, List.map_append]
    rw [List.nodup_append]
    refine ⟨h, List.nodup_singleton k, ?_⟩
    intro a ha hb
    simp at hb
    subst hb
    rcases List.mem_map.mp ha with ⟨q, hq, he⟩
    exact ((objHas_eq_false_iff o a).mp (Bool.eq_false_iff.mpr hh)) q hq he

theorem keysNodup_objAssign (t src : Obj) (h : KeysNodup t) :
    KeysNodup (objAssign t src) := by
  induction src generalizing t with
  | nil => exact h
  | cons p rest ih => exact ih (objSet t p.1 p.2) (keysNodup_objSet t p.1 p.2 h)

theorem keysNodup_tidy (o : Obj) (h : KeysNodup o) :
    KeysNodup (tidyParameters o) :=
  List.Nodup.sublist ((List.filter_sublist o).map Prod.fst) h

theorem keysNodup_nil : KeysNodup ([] : Obj) := by
  simp [KeysNodup]

theorem renameKey_id_of_not_in_table (cfg : Config) (k : String)
    (h : ∀ m ∈ cfg.parametersMap, m.1 ≠ k) :
    renameKey cfg k = k := by
  have hf : cfg.parametersMap.find? (fun m => m.1 == k) = none := by
    rw [List.find?_eq_none]
    intro m hm
    simpa using h m hm
  unfold renameKey
  rw [hf]

theorem renameKey_ne (cfg : Config) (key k : String)
    (h2 : ∀ m ∈ cfg.parametersMap, m.2 ≠ k) (hk : key ≠ k) :
    renameKey cfg key ≠ k := by
  unfold renameKey
  cases hfind : cfg.parametersMap.find? (fun m => m.1 == key) with
  | none => exact hk
  | some m => exact h2 m (List.mem_of_find?_eq_some hfind)

theorem translate_foldl_acc (cfg : Config) (k : String) (l : Obj)
    (h : ∀ p ∈ l, renameKey cfg p.1 ≠ k) :
    ∀ acc, objGet (l.foldl (fun acc p => objSet acc (renameKey cfg p.1) p.2) acc) k
      = objGet acc k := by
  induction l with
  | nil => intro acc; rfl
  | cons p rest ih =>
    intro acc
    rw [List.foldl_cons]
    rw [ih (fun q hq => h q (List.mem_cons_of_mem p hq)) (objSet acc (renameKey cfg p.1) p.2)]
    exact objGet_objSet_ne acc _ p.2 k (fun e => h p (List.mem_cons_self p rest) e.symm)

theorem translate_get_nullv (cfg : Config) (params : Obj) (k : String)
    (h : ∀ p ∈ params, renameKey cfg p.1 ≠ k) :
    objGet (translateParams cfg params) k = JSVal.nullv := by
  unfold translateParams
  rw [translate_foldl_acc cfg k params h []]
  rfl

theorem translate_foldl_get (cfg : Config) (k : String)
    (h : ∀ m ∈ cfg.parametersMap, m.1 ≠ k ∧ m.2 ≠ k) :
    ∀ (l : Obj), KeysNodup l → ∀ acc,
      objGet (l.foldl (fun acc p => objSet acc (renameKey cfg p.1) p.2) acc) k
        = if objHas l k then objGet l k else objGet acc k := by
  intro l
  induction l with
  | nil =>
    intro _ acc
    simp [objHas]
  | cons p rest ih =>
    intro hnd acc
    rcases (keysNodup_cons p rest).mp hnd with ⟨hne, hndr⟩
    rw [List.foldl_cons]
    by_cases hp : p.1 = k
    · have hrest : ∀ q ∈ rest, renameKey cfg q.1 ≠ k := fun q hq =>
        renameKey_ne cfg q.1 k (fun m hm => (h m hm).2) (fun e => hne q hq (e.trans hp.symm))
      rw [translate_foldl_acc cfg k rest hrest (objSet acc (renameKey cfg p.1) p.2)]
      have hpk : renameKey cfg p.1 = k := by
        rw [hp]
        exact renameKey_id_of_not_in_table cfg k (fun m hm => (h m hm).1)
      rw [hpk, objGet_objSet_self]
      simp [objHas, objGet, hp]
    · have hrk : renameKey cfg p.1 ≠ k :=
        renameKey_ne cfg p.1 k (fun m hm => (h m hm).2) hp
      rw [ih hndr (objSet acc (renameKey cfg p.1) p.2)]
      cases hhas : objHas rest k with
      | true => simp [objHas, objGet, hp, hhas]
      | false =>
        rw [objGet_objSet_ne acc (renameKey cfg p.1) p.2 k (fun e => hrk e.symm)]
        simp [objHas, objGet, hp, hhas]

theorem translate_get (cfg : Config) (params : Obj) (k : String)
    (hnd : KeysNodup params)
    (h : ∀ m ∈ cfg.parametersMap, m.1 ≠ k ∧ m.2 ≠ k) :
    objGet (translateParams cfg params) k = objGet params k := by
  unfold translateParams
  rw [translate_foldl_get cfg k h params hnd []]
  cases hhas : objHas params k with
  | true => simp [hhas]
  | false => simp [hhas, objGet_eq_nullv_of_not_has params k hhas, objGet]

theorem translate_foldl_values (cfg : Config) (P : JSVal → Prop) :
    ∀ (l : Obj) (acc : Obj), (∀ p ∈ l, P p.2) → (∀ p ∈ acc, P p.2) →
      ∀ pr ∈ l.foldl (fun acc p => objSet acc (renameKey cfg p.1) p.2) acc, P pr.2 := by
  intro l
  induction l with
  | nil =>
    intro acc _ hacc
    exact hacc
  | cons p rest ih =>
    intro acc hl hacc
    rw [List.foldl_cons]
    exact ih (objSet acc (renameKey cfg p.1) p.2)
      (fun q hq => hl q (List.mem_cons_of_mem p hq))
      (mem_objSet_values acc (renameKey cfg p.1) p.2 P hacc (hl p (List.mem_cons_self p rest)))

theorem translate_values (cfg : Config) (params : Obj) (P : JSVal → Prop)
    (h : ∀ p ∈ params, P p.2) :
    ∀ pr ∈ translateParams cfg params, P pr.2 :=
  translate_foldl_values cfg P params [] h (by simp)

theorem objSet_other_key_vals (o : Obj) (k : String) (v : JSVal) (k' : String) (w : JSVal)
    (hne : k ≠ k') (h : ∀ pr ∈ o, pr.1 = k → pr.2 = v) :
    ∀ pr ∈ objSet o k' w, pr.1 = k → pr.2 = v := by
  intro pr hpr hk
  rcases mem_objSet o k' w pr hpr with ⟨hmem, _⟩ | he
  · exact h pr hmem hk
  · rw [he] at hk
    exact absurd hk.symm hne

theorem listGetD_set_self {α : Type} (l : List α) (i : Nat) (x d : α) (h : i < l.length) :
    (l.set i x).getD i d = x := by
  induction l generalizing i with
  | nil => simp at h
  | cons a t ih =>
    cases i with
    | zero => rfl
    | succ n => exact ih n (Nat.lt_of_succ_lt_succ h)

theorem join_map_singleton (q : List Obj) :
    ((q.map Task.single).map taskHits).flatten = q := by
  induction q with
  | nil => rfl
  | cons h t ih =>
    simp only [List.map_cons, List.flatten_cons, List.singleton_append, taskHits]
    exact congrArg (h :: ·) ih

/-! ### Lemmas about the batch planner and the dispatcher -/

theorem getNextSendBatch_eq (cfg : Config) (q : List Obj) :
    getNextSendBatch cfg q = (q.take cfg.batchSize, q.drop cfg.batchSize) := by
  rcases le_total q.length cfg.batchSize with h | h
  · show (q.take (min q.length cfg.batchSize), q.drop (min q.length cfg.batchSize)) = _
    rw [min_eq_left h, List.take_length, List.drop_length, List.take_of_length_le h,
      List.drop_eq_nil_of_le h]
  · show (q.take (min q.length cfg.batchSize), q.drop (min q.length cfg.batchSize)) = _
    rw [min_eq_right h]

theorem batchBuckets_succ (cfg : Config) (n : Nat) (q : List Obj) :
    batchBuckets cfg (n + 1) q
      = ((q.take cfg.batchSize) :: (batchBuckets cfg n (q.drop cfg.batchSize)).1,
         (batchBuckets cfg n (q.drop cfg.batchSize)).2) := by
  show ((getNextSendBatch cfg q).1 :: (batchBuckets cfg n (getNextSendBatch cfg q).2).1,
        (batchBuckets cfg n (getNextSendBatch cfg q).2).2) = _
  rw [getNextSendBatch_eq]

theorem batchBuckets_snd (cfg : Config) :
    ∀ (n : Nat) (q : List Obj),
      (batchBuckets cfg n q).2 = q.drop (n * cfg.batchSize) := by
  intro n
  induction n with
  | zero =>
    intro q
    simp [batchBuckets]
  | succ m ih =>
    intro q
    simp only [batchBuckets_succ]
    rw [ih (q.drop cfg.batchSize), List.drop_drop, Nat.succ_mul,
      Nat.add_comm cfg.batchSize (m * cfg.batchSize)]

theorem batchBuckets_length (cfg : Config) :
    ∀ (n : Nat) (q : List Obj), (batchBuckets cfg n q).1.length = n := by
  intro n
  induction n with
  | zero =>
    intro q
    rfl
  | succ m ih =>
    intro q
    simp only [batchBuckets_succ, List.length_cons, ih]

theorem batchBuckets_flatten (cfg : Config) :
    ∀ (n : Nat) (q : List Obj),
      (batchBuckets cfg n q).1.flatten = q.take (n * cfg.batchSize) := by
  intro n
  induction n with
  | zero =>
    intro q
    simp [batchBuckets, Nat.zero_mul]
  | succ m ih =>
    intro q
    simp only [batchBuckets_succ, List.flatten_cons]
    rw [ih (q.drop cfg.batchSize)]
    rw [show (m + 1) * cfg.batchSize = cfg.batchSize + m * cfg.batchSize by ring]
    rw [List.take_add]

theorem batchBuckets_getElem (cfg : Config) :
    ∀ (n : Nat) (q : List Obj) (i : Nat), i < n →
      ((batchBuckets cfg n q).1)[i]?
        = some ((q.drop (i * cfg.batchSize)).take cfg.batchSize) := by
  intro n
  induction n with
  | zero =>
    intro q i h
    exact absurd h (Nat.not_lt_zero i)
  | succ m ih =>
    intro q i h
    simp only [batchBuckets_succ]
    cases i with
    | zero => simp
    | succ j =>
      simp only [List.getElem?_cons_succ]
      rw [ih (q.drop cfg.batchSize) j (Nat.lt_of_succ_lt_succ h)]
      rw [List.drop_drop, Nat.succ_mul, Nat.add_comm cfg.batchSize (j * cfg.batchSize)]

theorem lt_jsCeil_iff (len b i : Nat) (hb : 0 < b) :
    i < jsCeil len b ↔ i * b < len := by
  unfold jsCeil
  rw [Nat.lt_iff_add_one_le, Nat.le_div_iff_mul_le hb]
  rw [show (i + 1) * b = i * b + b by ring]
  generalize i * b = x
  omega

theorem jsCeil_mul_ge (len b : Nat) (hb : 0 < b) : len ≤ jsCeil len b * b := by
  by_contra hcon
  push_neg at hcon
  exact absurd ((lt_jsCeil_iff len b (jsCeil len b) hb).mpr hcon) (lt_irrefl _)

theorem jsCeil_pos (len b : Nat) (hb : 0 < b) (hlen : 0 < len) : 0 < jsCeil len b :=
  (lt_jsCeil_iff len b 0 hb).mpr (by simpa using hlen)

theorem getSendTaskQueue_not_batching (cfg : Config) (q : List Obj)
    (hb : cfg.batching = false) :
    getSendTaskQueue cfg q = (q.map Task.single, []) := by
  unfold getSendTaskQueue
  rw [hb]
  rfl

theorem getSendTaskQueue_eq_of_batching (cfg : Config) (q : List Obj)
    (hb : cfg.batching = true) :
    getSendTaskQueue cfg q
      = (((batchBuckets cfg (jsCeil q.length cfg.batchSize) q).1.filter
            (fun b => b.length > 0)).map Task.batch,
         (batchBuckets cfg (jsCeil q.length cfg.batchSize) q).2) := by
  unfold getSendTaskQueue
  rw [hb]
  rfl

theorem batchBuckets_mem_length (cfg : Config) (q : List Obj) (hB : 0 < cfg.batchSize)
    (b : List Obj)
    (hmem : b ∈ (batchBuckets cfg (jsCeil q.length cfg.batchSize) q).1) :
    0 < b.length := by
  rcases List.mem_iff_getElem?.mp hmem with ⟨i, hi⟩
  have hlt : i < jsCeil q.length cfg.batchSize := by
    by_contra hge
    push_neg at hge
    have hlen : (batchBuckets cfg (jsCeil q.length cfg.batchSize) q).1.length ≤ i := by
      rw [batchBuckets_length]
      exact hge
    rw [List.getElem?_eq_none hlen] at hi
    exact Option.noConfusion hi
  rw [batchBuckets_getElem cfg _ q i hlt] at hi
  have hb : b = (q.drop (i * cfg.batchSize)).take cfg.batchSize :=
    (Option.some_injective _ hi).symm
  rw [hb, List.length_take, List.length_drop]
  have hip := (lt_jsCeil_iff q.length cfg.batchSize i hB).mp hlt
  omega

theorem getSendTaskQueue_batch_fst (cfg : Config) (q : List Obj)
    (hb : cfg.batching = true) (hB : 0 < cfg.batchSize) :
    (getSendTaskQueue cfg q).1
      = (batchBuckets cfg (jsCeil q.length cfg.batchSize) q).1.map Task.batch := by
  have hall : ∀ b ∈ (batchBuckets cfg (jsCeil q.length cfg.batchSize) q).1,
      decide (b.length > 0) = true := fun b hbmem => by
    simpa using batchBuckets_mem_length cfg q hB b hbmem
  rw [getSendTaskQueue_eq_of_batching cfg q hb]
  show (List.filter _ _).map Task.batch = _
  rw [List.filter_eq_self.mpr hall]

theorem getSendTaskQueue_batch_snd (cfg : Config) (q : List Obj)
    (hb : cfg.batching = true) (hB : 0 < cfg.batchSize) :
    (getSendTaskQueue cfg q).2 = [] := by
  rw [getSendTaskQueue_eq_of_batching cfg q hb]
  show (batchBuckets cfg (jsCeil q.length cfg.batchSize) q).2 = []
  rw [batchBuckets_snd]
  exact List.drop_eq_nil_of_le (jsCeil_mul_ge q.length cfg.batchSize hB)

theorem getSendTaskQueue_batch_length (cfg : Config) (q : List Obj)
    (hb : cfg.batching = true) (hB : 0 < cfg.batchSize) :
    (getSendTaskQueue cfg q).1.length = jsCeil q.length cfg.batchSize := by
  rw [getSendTaskQueue_batch_fst cfg q hb hB, List.length_map, batchBuckets_length]

theorem getSendTaskQueue_batch_flatten (cfg : Config) (q : List Obj)
    (hb : cfg.batching = true) (hB : 0 < cfg.batchSize) :
    ((getSendTaskQueue cfg q).1.map taskHits).flatten = q := by
  rw [getSendTaskQueue_batch_fst cfg q hb hB, List.map_map]
  rw [show (taskHits ∘ Task.batch) = id from rfl, List.map_id]
  rw [batchBuckets_flatten]
  exact List.take_of_length_le (jsCeil_mul_ge q.length cfg.batchSize hB)

theorem getSendTaskQueue_single_flatten (cfg : Config) (q : List Obj)
    (hb : cfg.batching = false) :
    ((getSendTaskQueue cfg q).1.map taskHits).flatten = q := by
  rw [getSendTaskQueue_not_batching cfg q hb]
  exact join_map_singleton q

theorem batch_bodies_no_err (qsEncode : Obj → String) (bs : List (List Obj)) :
    ((bs.map Task.batch).map (getBody qsEncode)).findSome? exceptErr = none := by
  induction bs with
  | nil => rfl
  | cons b rest ih =>
    simp only [List.map_cons, List.findSome?_cons, getBody, exceptErr]
    exact ih

theorem processCallbacks_clean (errOf : Nat → Option String) :
    ∀ (l : List Nat) (c : Nat), (∀ i ∈ l, errOf i = none) →
      processCallbacks errOf l c = (none, c + l.length) := by
  intro l
  induction l with
  | nil =>
    intro c _
    rfl
  | cons i rest ih =>
    intro c h
    have hi : errOf i = none := h i (List.mem_cons_self i rest)
    simp only [processCallbacks, hi]
    rw [ih (c + 1) (fun j hj => h j (List.mem_cons_of_mem i hj))]
    rw [show c + 1 + rest.length = c + (i :: rest).length by simp; omega]

theorem processCallbacks_first_fail (errOf : Nat → Option String) (j : Nat) (m : String)
    (hj : errOf j = some m) :
    ∀ (pre rest : List Nat) (c : Nat), (∀ i ∈ pre, errOf i = none) →
      processCallbacks errOf (pre ++ j :: rest) c = (some m, c + pre.length + 1) := by
  intro pre
  induction pre with
  | nil =>
    intro rest c _
    simp only [List.nil_append, processCallbacks, hj, List.length_nil]
  | cons i pr ih =>
    intro rest c h
    have hi : errOf i = none := h i (List.mem_cons_self i pr)
    simp only [List.cons_append, processCallbacks, hi, List.append_eq]
    rw [ih rest (c + 1) (fun q hq => h q (List.mem_cons_of_mem i hq))]
    rw [show c + 1 + pr.length + 1 = c + (i :: pr).length + 1 by simp; omega]

/-! ### Wiring lemmas for the constructor, enqueue and pageview -/

theorem withContext_shares (v : Visitor) (ctx : Obj) (s : State) :
    (withContext v ctx s).1.queueRef = v.queueRef
    ∧ (withContext v ctx s).1.ppRef = v.ppRef
    ∧ (withContext v ctx s).2.queues = s.queues
    ∧ (withContext v ctx s).2.paramStores = s.paramStores :=
  ⟨rfl, rfl, rfl, rfl⟩

theorem enqueue_queues (v : Visitor) (t : String) (p : Obj) (s : State) :
    (enqueue v t p s).2.queues
      = s.queues.set v.queueRef
          ((s.queues.getD v.queueRef []) ++ [enqueuedHit s.config v t p]) :=
  rfl

theorem pageview_queues (v : Visitor) (o : PageviewOpts) (s : State) :
    (pageview v o s).2.queues
      = s.queues.set v.queueRef
          ((s.queues.getD v.queueRef []) ++ [pageviewHit v o s]) :=
  rfl

theorem send_state (qsEncode : Obj → String) (errOf : Nat → Option String)
    (order : List Nat) (v : Visitor) (s : State) :
    (send qsEncode errOf order v s).2.queues
      = s.queues.set v.queueRef (getSendTaskQueue s.config (s.queues.getD v.queueRef [])).2 := by
  simp only [send]
  repeat' split
  all_goals rfl

theorem jsCeil_zero (b : Nat) : jsCeil 0 b = 0 := by
  unfold jsCeil
  cases b with
  | zero => rfl
  | succ n =>
    simp only [Nat.zero_add, Nat.succ_sub_one]
    exact Nat.div_eq_of_lt (Nat.lt_succ_self n)

theorem last_bucket_length (len B i : Nat) (hB : 0 < B)
    (hi1 : i * B < len) (hle : len ≤ (i + 1) * B) :
    min B (len - i * B) = if len % B = 0 then B else len % B := by
  have hdm : B * (len / B) + len % B = len := Nat.div_add_mod len B
  have hmod : len % B < B := Nat.mod_lt len hB
  have he1 : (i + 1) * B = i * B + B := by ring
  have he2 : B * (len / B) = (len / B) * B := by ring
  by_cases hr : len % B = 0
  · rw [if_pos hr]
    have hd1 : i < len / B := by
      have h4 : i * B < (len / B) * B := by omega
      exact lt_of_mul_lt_mul_right h4 (Nat.zero_le B)
    have hd2 : len / B ≤ i + 1 := by
      have h4 : (len / B) * B ≤ (i + 1) * B := by omega
      exact le_of_mul_le_mul_right h4 hB
    have hdi : len / B = i + 1 := le_antisymm hd2 hd1
    have hlen : len = i * B + B := by
      have h3 : (len / B) * B = (i + 1) * B := by rw [hdi]
      omega
    omega
  · rw [if_neg hr]
    have hd1 : i ≤ len / B := by
      have h5 : (len / B + 1) * B = (len / B) * B + B := by ring
      have h4 : i * B < (len / B + 1) * B := by omega
      have h6 := lt_of_mul_lt_mul_right h4 (Nat.zero_le B)
      omega
    have hd2 : len / B ≤ i := by
      have h4 : (len / B) * B < (i + 1) * B := by omega
      have h6 := lt_of_mul_lt_mul_right h4 (Nat.zero_le B)
      omega
    have hdi : len / B = i := le_antisymm hd2 hd1
    have hlen : len = i * B + len % B := by
      have h3 : (len / B) * B = i * B := by rw [hdi]
      omega
    omega

/-! ### The claims -/

/-- C2: with batching enabled and a positive `batchSize = B`, planning a
queue of `N` hits produces exactly `⌈N / B⌉` dispatch units, every unit
except possibly the last holds exactly `B` hits, the last holds
`N % B` hits (or `B` when `B` divides `N`), and concatenating the
units' hits in order reproduces the original queue exactly. -/
theorem batch_planning_partition (cfg : Config) (q : List Obj)
    (hb : cfg.batching = true) (hB : 0 < cfg.batchSize) :
    (getSendTaskQueue cfg q).1.length
        = (q.length + cfg.batchSize - 1) / cfg.batchSize
    ∧ (∀ i u, ((getSendTaskQueue cfg q).1)[i]? = some u →
        i + 1 < (getSendTaskQueue cfg q).1.length →
        (taskHits u).length = cfg.batchSize)
    ∧ (∀ i u, ((getSendTaskQueue cfg q).1)[i]? = some u →
        i + 1 = (getSendTaskQueue cfg q).1.length →
        (taskHits u).length
          = if q.length % cfg.batchSize = 0 then cfg.batchSize
            else q.length % cfg.batchSize)
    ∧ ((getSendTaskQueue cfg q).1.map taskHits).flatten = q := by
  have hlen := getSendTaskQueue_batch_length cfg q hb hB
  have hfst := getSendTaskQueue_batch_fst cfg q hb hB
  refine ⟨by rw [hlen]; rfl, ?_, ?_, getSendTaskQueue_batch_flatten cfg q hb hB⟩
  · intro i u hi hlt
    rw [hfst, List.getElem?_map] at hi
    rw [hlen] at hlt
    have hic : i < jsCeil q.length cfg.batchSize := by omega
    rw [batchBuckets_getElem cfg _ q i hic] at hi
    simp only [Option.map_some'] at hi
    have hu : u = Task.batch ((q.drop (i * cfg.batchSize)).take cfg.batchSize) :=
      (Option.some_injective _ hi).symm
    rw [hu]
    show ((q.drop (i * cfg.batchSize)).take cfg.batchSize).length = cfg.batchSize
    rw [List.length_take, List.length_drop]
    have h2 : (i + 1) * cfg.batchSize < q.length :=
      (lt_jsCeil_iff q.length cfg.batchSize (i + 1) hB).mp (by omega)
    have he1 : (i + 1) * cfg.batchSize = i * cfg.batchSize + cfg.batchSize := by ring
    omega
  · intro i u hi hlast
    rw [hfst, List.getElem?_map] at hi
    rw [hlen] at hlast
    have hic : i < jsCeil q.length cfg.batchSize := by omega
    rw [batchBuckets_getElem cfg _ q i hic] at hi
    simp only [Option.map_some'] at hi
    have hu : u = Task.batch ((q.drop (i * cfg.batchSize)).take cfg.batchSize) :=
      (Option.some_injective _ hi).symm
    rw [hu]
    show ((q.drop (i * cfg.batchSize)).take cfg.batchSize).length = _
    rw [List.length_take, List.length_drop]
    have hi1 : i * cfg.batchSize < q.length :=
      (lt_jsCeil_iff q.length cfg.batchSize i hB).mp hic
    have hle : q.length ≤ (i + 1) * cfg.batchSize := by
      have hmul := jsCeil_mul_ge q.length cfg.batchSize hB
      rw [← hlast] at hmul
      exact hmul
    exact last_bucket_length q.length cfg.batchSize i hB hi1 hle

/-- Witness for C2: five hits, batch size two — three units of sizes
2, 2, 1 whose concatenation is the queue. -/
theorem batch_planning_partition_witness :
    (getSendTaskQueue c2Cfg c2Queue).1.length
        = (c2Queue.length + c2Cfg.batchSize - 1) / c2Cfg.batchSize
    ∧ (∀ i u, ((getSendTaskQueue c2Cfg c2Queue).1)[i]? = some u →
        i + 1 < (getSendTaskQueue c2Cfg c2Queue).1.length →
        (taskHits u).length = c2Cfg.batchSize)
    ∧ (∀ i u, ((getSendTaskQueue c2Cfg c2Queue).1)[i]? = some u →
        i + 1 = (getSendTaskQueue c2Cfg c2Queue).1.length →
        (taskHits u).length
          = if c2Queue.length % c2Cfg.batchSize = 0 then c2Cfg.batchSize
            else c2Queue.length % c2Cfg.batchSize)
    ∧ ((getSendTaskQueue c2Cfg c2Queue).1.map taskHits).flatten = c2Queue :=
  batch_planning_partition c2Cfg c2Queue rfl (by decide)

/-- C7: a `send` invocation drains the queue synchronously at planning
time: the planned units' hits concatenate to exactly the queue contents
at the instant of the call, the drained queue is empty (so the queue
object observed after `send` holds `[]`), and no hit outside the
invocation-time queue contents appears in the plan. -/
theorem send_drains_atomically (qsEncode : Obj → String) (errOf : Nat → Option String)
    (order : List Nat) (v : Visitor) (s : State)
    (hcfg : s.config.batching = false ∨ 0 < s.config.batchSize) :
    ((getSendTaskQueue s.config (s.queues.getD v.queueRef [])).1.map taskHits).flatten
        = s.queues.getD v.queueRef []
    ∧ (getSendTaskQueue s.config (s.queues.getD v.queueRef [])).2 = []
    ∧ (v.queueRef < s.queues.length →
        (send qsEncode errOf order v s).2.queues.getD v.queueRef [] = [])
    ∧ (∀ h, h ∉ s.queues.getD v.queueRef [] →
        h ∉ ((getSendTaskQueue s.config (s.queues.getD v.queueRef [])).1.map taskHits).flatten) := by
  have hflat : ((getSendTaskQueue s.config (s.queues.getD v.queueRef [])).1.map taskHits).flatten
      = s.queues.getD v.queueRef [] := by
    rcases hcfg with hb | hB
    · exact getSendTaskQueue_single_flatten s.config _ hb
    · cases hbb : s.config.batching with
      | false => exact getSendTaskQueue_single_flatten s.config _ hbb
      | true => exact getSendTaskQueue_batch_flatten s.config _ hbb hB
  have hsnd : (getSendTaskQueue s.config (s.queues.getD v.queueRef [])).2 = [] := by
    rcases hcfg with hb | hB
    · rw [getSendTaskQueue_not_batching s.config _ hb]
    · cases hbb : s.config.batching with
      | false => rw [getSendTaskQueue_not_batching s.config _ hbb]
      | true => exact getSendTaskQueue_batch_snd s.config _ hbb hB
  refine ⟨hflat, hsnd, ?_, ?_⟩
  · intro href
    rw [send_state]
    show (s.queues.set v.queueRef
      (getSendTaskQueue s.config (s.queues.getD v.queueRef [])).2).getD v.queueRef [] = []
    rw [hsnd]
    exact listGetD_set_self s.queues v.queueRef [] [] href
  · intro h hmem hcontra
    rw [hflat] at hcontra
    exact hmem hcontra

/-- Witness for C7 at a concrete one-hit queue under the sample
batching config. -/
theorem send_drains_atomically_witness :
    ((getSendTaskQueue c4State.config (c4State.queues.getD c4Visitor.queueRef [])).1.map taskHits).flatten
        = c4State.queues.getD c4Visitor.queueRef []
    ∧ (getSendTaskQueue c4State.config (c4State.queues.getD c4Visitor.queueRef [])).2 = []
    ∧ (c4Visitor.queueRef < c4State.queues.length →
        (send sampleEncode noErr [0, 1] c4Visitor c4State).2.queues.getD c4Visitor.queueRef [] = [])
    ∧ (∀ h, h ∉ c4State.queues.getD c4Visitor.queueRef [] →
        h ∉ ((getSendTaskQueue c4State.config (c4State.queues.getD c4Visitor.queueRef [])).1.map taskHits).flatten) :=
  send_drains_atomically sampleEncode noErr [0, 1] c4Visitor c4State (Or.inr (by decide))

/-- C8: `send` on an empty queue reports `(null, 0)` through the
completion callback (which every path of `send` calls exactly once)
and issues no HTTP POST. -/
theorem send_empty_queue (qsEncode : Obj → String) (errOf : Nat → Option String)
    (order : List Nat) (v : Visitor) (s : State)
    (hq : s.queues.getD v.queueRef [] = []) :
    (send qsEncode errOf order v s).1
      = { posts := [], cbError := none, cbCount := 0 } := by
  have hplan : getSendTaskQueue s.config [] = ([], []) := by
    cases hbb : s.config.batching with
    | false => exact getSendTaskQueue_not_batching s.config [] hbb
    | true =>
      rw [getSendTaskQueue_eq_of_batching s.config [] hbb]
      simp [jsCeil_zero, batchBuckets]
  simp only [send]
  rw [hq, hplan]
  rfl

/-- Witness for C8: a freshly initialized visitor's queue is empty and
`send` reports `(null, 0)` with no POSTs. -/
theorem send_empty_queue_witness :
    (send sampleEncode noErr [] (init {} sampleState).1 (init {} sampleState).2).1
      = { posts := [], cbError := none, cbCount := 0 } :=
  send_empty_queue sampleEncode noErr [] (init {} sampleState).1 (init {} sampleState).2
    (by decide)

/-- C4: when at least one POST of a send fails, the completion callback
receives the message of the first failure observed in completion order,
and a count equal to the number of units processed at that instant —
the failing unit increments the count exactly like a successful one
(the completion order is `pre ++ j :: rest` where every unit of `pre`
succeeded and unit `j` is the first failure). -/
theorem send_first_error_callback (qsEncode : Obj → String) (errOf : Nat → Option String)
    (pre rest : List Nat) (j : Nat) (m : String) (v : Visitor) (s : State)
    (hb : s.config.batching = true) (hB : 0 < s.config.batchSize)
    (hq : s.queues.getD v.queueRef [] ≠ [])
    (hpre : ∀ i ∈ pre, errOf i = none) (hj : errOf j = some m) :
    (send qsEncode errOf (pre ++ j :: rest) v s).1.cbError = some m
    ∧ (send qsEncode errOf (pre ++ j :: rest) v s).1.cbCount = pre.length + 1 := by
  have hlen0 : ¬((getSendTaskQueue s.config (s.queues.getD v.queueRef [])).1.length = 0) := by
    rw [getSendTaskQueue_batch_length s.config _ hb hB]
    have hpos : 0 < (s.queues.getD v.queueRef []).length := List.length_pos.mpr hq
    have := jsCeil_pos (s.queues.getD v.queueRef []).length s.config.batchSize hB hpos
    omega
  have hnoerr : (((getSendTaskQueue s.config (s.queues.getD v.queueRef [])).1).map
      (getBody qsEncode)).findSome? exceptErr = none := by
    rw [getSendTaskQueue_batch_fst s.config _ hb hB]
    exact batch_bodies_no_err qsEncode _
  have hcb := processCallbacks_first_fail errOf j m hj pre rest 0 hpre
  refine ⟨?_, ?_⟩ <;> (simp only [send]; rw [if_neg hlen0, hnoerr]; simp [hcb])

/-- Witness for C4: three hits in two units; the first unit succeeds,
the second fails with message `boom`; the callback reports `boom` and
count 2. -/
theorem send_first_error_callback_witness :
    (send sampleEncode c4ErrOf ([0] ++ 1 :: []) c4Visitor c4State).1.cbError = some "boom"
    ∧ (send sampleEncode c4ErrOf ([0] ++ 1 :: []) c4Visitor c4State).1.cbCount = [0].length + 1 :=
  send_first_error_callback sampleEncode c4ErrOf [0] [] 1 "boom" c4Visitor c4State
    rfl (by decide) (by decide) (by decide) rfl

theorem constructVisitor_cid_str (options : VisitorOptions) (ctx : Obj)
    (r1 r2 : Option Nat) (s : State) :
    ∃ c : String, (constructVisitor options ctx r1 r2 s).1.cid = JSVal.str c := by
  rcases hc : options.cid with _ | c
  · exact ⟨s.uuidGen s.uuidCount, by simp [constructVisitor, hc]⟩
  · by_cases he : c = ""
    · exact ⟨s.uuidGen s.uuidCount, by simp [constructVisitor, hc, he]⟩
    · exact ⟨c, by simp [constructVisitor, hc, he, optToVal]⟩

theorem withContext_cid_str (v : Visitor) (ctx : Obj) (s : State) :
    ∃ c : String, (withContext v ctx s).1.cid = JSVal.str c :=
  constructVisitor_cid_str v.options ctx (some v.ppRef) (some v.queueRef) s

theorem withContext_identity (v : Visitor) (ctx : Obj) (s : State) :
    (withContext v ctx s).1.tid = optToVal v.options.tid
    ∧ (withContext v ctx s).1.uid = optToVal v.options.uid
    ∧ (withContext v ctx s).1.options = v.options :=
  ⟨rfl, rfl, rfl⟩

theorem pageviewPre_eq (v : Visitor) (o : PageviewOpts) (pp : Obj) :
    pageviewPre v o pp
      = tidyParameters (objSet (objSet (objSet (objAssign (objAssign [] pp) (o.params.getD []))
          "dp" (jsOr (JSVal.str o.path) (objGet v.context "dp")))
          "dh" (jsOr (optToVal o.hostname) (objGet v.context "dh")))
          "dt" (jsOr (optToVal o.title) (objGet v.context "dt"))) :=
  rfl

theorem pageviewHit_eq (v : Visitor) (o : PageviewOpts) (s : State) :
    pageviewHit v o s
      = objSet (objSet (objSet (objSet (objSet
          (translateParams s.config (pageviewPre v o (s.paramStores.getD v.ppRef [])))
          "v" (JSVal.str s.config.protocolVersion))
          "tid" (optToVal v.options.tid))
          "cid" (withContext v (o.params.getD []) s).1.cid)
          "uid" (optToVal v.options.uid))
          "t" (JSVal.str "pageview") :=
  rfl

theorem pageviewPre_values (v : Visitor) (o : PageviewOpts) (pp : Obj) :
    ∀ pr ∈ pageviewPre v o pp, pr.2 ≠ JSVal.nullv := by
  intro pr hpr
  rw [pageviewPre_eq] at hpr
  exact tidy_values _ pr hpr

theorem pageviewPre_keysNodup (v : Visitor) (o : PageviewOpts) (pp : Obj) :
    KeysNodup (pageviewPre v o pp) := by
  rw [pageviewPre_eq]
  exact keysNodup_tidy _ (keysNodup_objSet _ _ _ (keysNodup_objSet _ _ _
    (keysNodup_objSet _ _ _ (keysNodup_objAssign _ _ (keysNodup_objAssign _ _ keysNodup_nil)))))

theorem pageviewHit_mem_cases (v : Visitor) (o : PageviewOpts) (s : State) :
    ∀ pr ∈ pageviewHit v o s,
      pr = ("tid", optToVal v.options.tid)
      ∨ pr = ("uid", optToVal v.options.uid)
      ∨ pr.2 ≠ JSVal.nullv := by
  intro pr hpr
  rw [pageviewHit_eq] at hpr
  rcases mem_objSet _ _ _ pr hpr with ⟨hpr4, _⟩ | heqt
  · rcases mem_objSet _ _ _ pr hpr4 with ⟨hpr3, _⟩ | hequ
    · rcases mem_objSet _ _ _ pr hpr3 with ⟨hpr2, _⟩ | heqc
      · rcases mem_objSet _ _ _ pr hpr2 with ⟨hpr1, _⟩ | heqti
        · rcases mem_objSet _ _ _ pr hpr1 with ⟨hpr0, _⟩ | heqv
          · exact Or.inr (Or.inr (translate_values s.config _ (fun x => x ≠ JSVal.nullv)
              (pageviewPre_values v o _) pr hpr0))
          · refine Or.inr (Or.inr ?_)
            rw [heqv]
            exact fun hx => JSVal.noConfusion hx
        · exact Or.inl heqti
      · refine Or.inr (Or.inr ?_)
        rcases withContext_cid_str v (o.params.getD []) s with ⟨c, hc⟩
        rw [heqc]
        show (withContext v (o.params.getD []) s).1.cid ≠ JSVal.nullv
        rw [hc]
        exact fun hx => JSVal.noConfusion hx
    · exact Or.inr (Or.inl hequ)
  · refine Or.inr (Or.inr ?_)
    rw [heqt]
    exact fun hx => JSVal.noConfusion hx

/-- C1: the claim fails on the code.  A root visitor constructed without
an explicit `cid` draws `uuid-0`, yet the hit its very first `pageview`
enqueues carries `uuid-1`: `withContext` re-runs the constructor with
the original options (which hold no `cid`), so the derived view draws a
fresh identifier instead of inheriting the root's. -/
theorem cid_regenerated_in_derived_view :
    rootVisitor.cid = JSVal.str "uuid-0"
    ∧ ((pageview rootVisitor pvHome rootState).2.queues.getD rootVisitor.queueRef []).map
        (fun h => objGet h "cid") = [JSVal.str "uuid-1"]
    ∧ JSVal.str "uuid-0" ≠ JSVal.str "uuid-1" := by
  refine ⟨rfl, ?_, by decide⟩
  rfl

/-- C3: the claim fails on the code.  With batching disabled the planner
does yield one dispatch unit per hit, but `getBody` then calls `.map`
on a plain hit object (the `@ts-ignore`'d line), so every task's
executor throws, no POST is issued, the drained hits are lost, and the
callback receives the TypeError's message with count 0 — instead of the
claimed single POST with body `first=123`. -/
theorem unbatched_send_crashes :
    (getSendTaskQueue c3State.config (c3State.queues.getD c3Visitor.queueRef [])).1
        = [Task.single [("first", JSVal.str "123")]]
    ∧ (send sampleEncode noErr [0] c3Visitor c3State).1
        = { posts := [], cbError := some "params.map is not a function", cbCount := 0 }
    ∧ (send sampleEncode noErr [0] c3Visitor c3State).2.queues.getD c3Visitor.queueRef [] = [] := by
  refine ⟨rfl, rfl, rfl⟩

/-- C10: constructing a second visitor whose options supply hostname,
path, enableBatching and batchSize rewrites the process-wide config,
and the first visitor's next `send` reads the new values: over the same
two queued hits, `send` issues one POST to the original batch endpoint
before the second construction, but two POSTs to the new endpoint after
it. -/
theorem constructor_mutates_global_config :
    (send sampleEncode noErr [0] c10V1 c10StateQueued).1.posts.map Post.url
        = ["https://www.google-analytics.com/batch"]
    ∧ c10StateAfterV2.config.batchSize = 1
    ∧ c10StateAfterV2.config.batching = true
    ∧ c10StateAfterV2.config.path = "/p2"
    ∧ c10StateAfterV2.config.hostname = "https://example.org"
    ∧ (send sampleEncode noErr [0, 1] c10V1 c10StateAfterV2).1.posts.map Post.url
        = ["https://example.org/batch", "https://example.org/batch"]
    ∧ (send sampleEncode noErr [0, 1] c10V1 c10StateAfterV2).1.posts.length = 2 := by
  refine ⟨rfl, rfl, rfl, rfl, rfl, rfl, rfl⟩

theorem pageviewPre_eq_raw (v : Visitor) (o : PageviewOpts) (pp : Obj) :
    pageviewPre v o pp = tidyParameters (pageviewRaw v o pp) :=
  rfl

/-- C5 is refuted as stated: for a root visitor constructed without
`tid`/`uid`, the identity-defaults merge copies the undefined `tid` and
`uid` keys into the enqueued hit, so the hit does contain keys whose
value is absent. -/
theorem enqueued_hit_contains_absent_keys :
    ("tid", JSVal.nullv) ∈ pageviewHit rootVisitor c5Opts rootState
    ∧ ("uid", JSVal.nullv) ∈ pageviewHit rootVisitor c5Opts rootState := by
  refine ⟨?_, ?_⟩ <;> decide

/-- C5 (amended): the hit a pageview enqueues never carries a
null/absent value under any key other than `tid` and `uid`; the
null/undefined caller params and unset named fields are sanitized away,
and `cid` is always a generated string.  The `tid`/`uid` keys carry
absent values exactly when the visitor options omit them: when both are
supplied, the enqueued hit holds no null/absent value at all. -/
theorem pageview_hit_values (v : Visitor) (o : PageviewOpts) (s : State) :
    (∀ pr ∈ pageviewHit v o s, pr.1 ≠ "tid" → pr.1 ≠ "uid" → pr.2 ≠ JSVal.nullv)
    ∧ (∀ t u, v.options.tid = some t → v.options.uid = some u →
        ∀ pr ∈ pageviewHit v o s, pr.2 ≠ JSVal.nullv) := by
  constructor
  · intro pr hpr h1 h2
    rcases pageviewHit_mem_cases v o s pr hpr with he | he | he
    · exact absurd (by rw [he]) h1
    · exact absurd (by rw [he]) h2
    · exact he
  · intro t u ht hu pr hpr
    rcases pageviewHit_mem_cases v o s pr hpr with he | he | he
    · rw [he, ht]
      exact fun hx => JSVal.noConfusion hx
    · rw [he, hu]
      exact fun hx => JSVal.noConfusion hx
    · exact he

/-- Witness for the amended C5: at a visitor constructed with `tid` and
`uid` supplied, the scenario pageview's enqueued hit holds no
null/absent value. -/
theorem pageview_hit_values_witness :
    ∀ pr ∈ pageviewHit idVisitor c5Opts idState, pr.2 ≠ JSVal.nullv :=
  (pageview_hit_values idVisitor c5Opts idState).2 "UA-1" "u9" rfl rfl

/-- C6 is refuted as stated: on a root visitor, a `dh` supplied through
params does not survive into the hit when the hostname named field is
absent — the unconditional write clobbers it with the (empty) context's
value and the key is tidied away. -/
theorem params_dh_clobbered :
    objGet (pageviewHit rootVisitor c6Opts rootState) "dh" = JSVal.nullv
    ∧ ¬ objGet (pageviewHit rootVisitor c6Opts rootState) "dh" = JSVal.str "example.org" := by
  refine ⟨by decide, by decide⟩

/-- C6 (amended): `pageview` merges an empty base, then persistent
params, then caller params — for a key outside `dp`/`dh`/`dt`, the
reserved default keys and the translation table, a params-supplied
value survives into the enqueued hit and overrides the persistent one,
and a persistent value survives when params lack the key.  The three
keys `dp`/`dh`/`dt` however are written unconditionally: a
params-supplied value for them never survives on its own — the key
takes the named field when it is supplied and truthy, else the view's
context value, and is dropped when both are absent. -/
theorem pageview_merge_behavior (v : Visitor) (o : PageviewOpts) (s : State) :
    (∀ k val, k ≠ "dp" → k ≠ "dh" → k ≠ "dt" → k ≠ "v" → k ≠ "tid" → k ≠ "cid" →
        k ≠ "uid" → k ≠ "t" →
        (∀ m ∈ s.config.parametersMap, m.1 ≠ k ∧ m.2 ≠ k) →
        KeysNodup (o.params.getD []) →
        objGet (o.params.getD []) k = JSVal.str val →
        objGet (pageviewHit v o s) k = JSVal.str val)
    ∧ (∀ k val, k ≠ "dp" → k ≠ "dh" → k ≠ "dt" → k ≠ "v" → k ≠ "tid" → k ≠ "cid" →
        k ≠ "uid" → k ≠ "t" →
        (∀ m ∈ s.config.parametersMap, m.1 ≠ k ∧ m.2 ≠ k) →
        KeysNodup (s.paramStores.getD v.ppRef []) →
        objHas (o.params.getD []) k = false →
        objGet (s.paramStores.getD v.ppRef []) k = JSVal.str val →
        objGet (pageviewHit v o s) k = JSVal.str val)
    ∧ ((∀ m ∈ s.config.parametersMap, m.2 ≠ "dh") →
        o.hostname = none → objGet v.context "dh" = JSVal.nullv →
        objGet (pageviewHit v o s) "dh" = JSVal.nullv)
    ∧ (∀ hn, o.hostname = some hn → hn ≠ "" →
        (∀ m ∈ s.config.parametersMap, m.1 ≠ "dh" ∧ m.2 ≠ "dh") →
        objGet (pageviewHit v o s) "dh" = JSVal.str hn)
    ∧ (∀ c, o.hostname = none → objGet v.context "dh" = JSVal.str c →
        (∀ m ∈ s.config.parametersMap, m.1 ≠ "dh" ∧ m.2 ≠ "dh") →
        objGet (pageviewHit v o s) "dh" = JSVal.str c) := by
  have hpeel : ∀ k : String, k ≠ "v" → k ≠ "tid" → k ≠ "cid" → k ≠ "uid" → k ≠ "t" →
      objGet (pageviewHit v o s) k
        = objGet (translateParams s.config
            (pageviewPre v o (s.paramStores.getD v.ppRef []))) k := by
    intro k h1 h2 h3 h4 h5
    rw [pageviewHit_eq]
    rw [objGet_objSet_ne _ _ _ _ h5, objGet_objSet_ne _ _ _ _ h4,
      objGet_objSet_ne _ _ _ _ h3, objGet_objSet_ne _ _ _ _ h2,
      objGet_objSet_ne _ _ _ _ h1]
  refine ⟨?_, ?_, ?_, ?_, ?_⟩
  · intro k val hdp hdh hdt hv2 htid hcid huid ht hmap hnd hget
    rw [hpeel k hv2 htid hcid huid ht]
    rw [translate_get s.config _ k (pageviewPre_keysNodup v o _) hmap]
    rw [pageviewPre_eq_raw]
    have hne0 : objGet (o.params.getD []) k ≠ JSVal.nullv := by
      rw [hget]
      exact fun hx => JSVal.noConfusion hx
    have hhas : objHas (o.params.getD []) k = true := objHas_of_get_ne _ _ hne0
    have hX : objGet (pageviewRaw v o (s.paramStores.getD v.ppRef [])) k = JSVal.str val := by
      unfold pageviewRaw
      rw [objGet_objSet_ne _ _ _ _ hdt, objGet_objSet_ne _ _ _ _ hdh,
        objGet_objSet_ne _ _ _ _ hdp]
      rw [objAssign_get _ _ k hnd, hhas, if_pos rfl, hget]
    rw [tidy_get_of_ne _ k (by rw [hX]; exact fun hx => JSVal.noConfusion hx), hX]
  · intro k val hdp hdh hdt hv2 htid hcid huid ht hmap hndpp hq0 hget
    rw [hpeel k hv2 htid hcid huid ht]
    rw [translate_get s.config _ k (pageviewPre_keysNodup v o _) hmap]
    rw [pageviewPre_eq_raw]
    have hnc : ∀ p ∈ (o.params.getD []), p.1 ≠ k := (objHas_eq_false_iff _ _).mp hq0
    have hne0 : objGet (s.paramStores.getD v.ppRef []) k ≠ JSVal.nullv := by
      rw [hget]
      exact fun hx => JSVal.noConfusion hx
    have hhas : objHas (s.paramStores.getD v.ppRef []) k = true := objHas_of_get_ne _ _ hne0
    have hX : objGet (pageviewRaw v o (s.paramStores.getD v.ppRef [])) k = JSVal.str val := by
      unfold pageviewRaw
      rw [objGet_objSet_ne _ _ _ _ hdt, objGet_objSet_ne _ _ _ _ hdh,
        objGet_objSet_ne _ _ _ _ hdp]
      rw [objAssign_get_not_contrib _ _ k hnc]
      rw [objAssign_get _ _ k hndpp, hhas, if_pos rfl, hget]
    rw [tidy_get_of_ne _ k (by rw [hX]; exact fun hx => JSVal.noConfusion hx), hX]
  · intro hm2 ho hctx
    rw [hpeel "dh" (by decide) (by decide) (by decide) (by decide) (by decide)]
    apply translate_get_nullv
    intro p hp
    rw [pageviewPre_eq_raw] at hp
    have hmem := List.mem_filter.mp hp
    have hpn : p.2 ≠ JSVal.nullv := by simpa using hmem.2
    have hall : ∀ pr ∈ pageviewRaw v o (s.paramStores.getD v.ppRef []),
        pr.1 = "dh" → pr.2 = JSVal.nullv := by
      unfold pageviewRaw
      apply objSet_other_key_vals _ "dh" JSVal.nullv "dt" _ (by decide)
      rw [ho, hctx]
      rw [show jsOr (optToVal none) JSVal.nullv = JSVal.nullv from rfl]
      exact objSet_key_eq _ "dh" JSVal.nullv
    have hp1 : p.1 ≠ "dh" := fun he => hpn (hall p hmem.1 he)
    exact renameKey_ne s.config p.1 "dh" hm2 hp1
  · intro hn hohn hne hmap2
    rw [hpeel "dh" (by decide) (by decide) (by decide) (by decide) (by decide)]
    rw [translate_get s.config _ "dh" (pageviewPre_keysNodup v o _) hmap2]
    rw [pageviewPre_eq_raw]
    have hX : objGet (pageviewRaw v o (s.paramStores.getD v.ppRef [])) "dh" = JSVal.str hn := by
      unfold pageviewRaw
      rw [objGet_objSet_ne _ _ _ _ (show ("dh" : String) ≠ "dt" by decide)]
      rw [hohn]
      rw [show jsOr (optToVal (some hn)) (objGet v.context "dh")
            = if (hn != "") = true then JSVal.str hn else objGet v.context "dh" from rfl]
      rw [if_pos (by simpa using hne)]
      rw [objGet_objSet_self]
    rw [tidy_get_of_ne _ "dh" (by rw [hX]; exact fun hx => JSVal.noConfusion hx), hX]
  · intro c ho hctx hmap2
    rw [hpeel "dh" (by decide) (by decide) (by decide) (by decide) (by decide)]
    rw [translate_get s.config _ "dh" (pageviewPre_keysNodup v o _) hmap2]
    rw [pageviewPre_eq_raw]
    have hX : objGet (pageviewRaw v o (s.paramStores.getD v.ppRef [])) "dh" = JSVal.str c := by
      unfold pageviewRaw
      rw [objGet_objSet_ne _ _ _ _ (show ("dh" : String) ≠ "dt" by decide)]
      rw [ho, hctx]
      rw [show jsOr (optToVal none) (JSVal.str c) = JSVal.str c from rfl]
      rw [objGet_objSet_self]
    rw [tidy_get_of_ne _ "dh" (by rw [hX]; exact fun hx => JSVal.noConfusion hx), hX]

/-- Witness for the amended C6: with the hostname named field supplied
and truthy, the enqueued hit's `dh` is that hostname. -/
theorem pageview_merge_behavior_witness :
    objGet (pageviewHit rootVisitor c5Opts rootState) "dh" = JSVal.str "example.com" :=
  (pageview_merge_behavior rootVisitor c5Opts rootState).2.2.2.1 "example.com" rfl
    (by decide) (by decide)

/-- C9: a context-derived view holds the same queue reference as its
parent, a hit enqueued through the view lands in the parent's queue,
and the parent's next send plan carries it. -/
theorem derived_view_shares_queue (v : Visitor) (ctx : Obj) (t : String) (p : Obj) (s : State)
    (href : v.queueRef < s.queues.length) :
    (withContext v ctx s).1.queueRef = v.queueRef
    ∧ (enqueue (withContext v ctx s).1 t p (withContext v ctx s).2).2.queues.getD v.queueRef []
        = s.queues.getD v.queueRef []
          ++ [enqueuedHit (withContext v ctx s).2.config (withContext v ctx s).1 t p]
    ∧ (((withContext v ctx s).2.config.batching = false
          ∨ 0 < (withContext v ctx s).2.config.batchSize) →
        enqueuedHit (withContext v ctx s).2.config (withContext v ctx s).1 t p
          ∈ ((getSendTaskQueue (withContext v ctx s).2.config
              ((enqueue (withContext v ctx s).1 t p (withContext v ctx s).2).2.queues.getD
                v.queueRef [])).1.map taskHits).flatten) := by
  have hq2 : (enqueue (withContext v ctx s).1 t p (withContext v ctx s).2).2.queues.getD
      v.queueRef []
      = s.queues.getD v.queueRef []
        ++ [enqueuedHit (withContext v ctx s).2.config (withContext v ctx s).1 t p] := by
    rw [enqueue_queues]
    exact listGetD_set_self s.queues v.queueRef _ [] href
  refine ⟨rfl, hq2, ?_⟩
  intro hcfg
  have hflat : ((getSendTaskQueue (withContext v ctx s).2.config
      ((enqueue (withContext v ctx s).1 t p (withContext v ctx s).2).2.queues.getD
        v.queueRef [])).1.map taskHits).flatten
      = (enqueue (withContext v ctx s).1 t p (withContext v ctx s).2).2.queues.getD
          v.queueRef [] := by
    rcases hcfg with hb | hB
    · exact getSendTaskQueue_single_flatten _ _ hb
    · cases hbb : (withContext v ctx s).2.config.batching with
      | false => exact getSendTaskQueue_single_flatten _ _ hbb
      | true => exact getSendTaskQueue_batch_flatten _ _ hbb hB
  rw [hflat, hq2]
  exact List.mem_append_right _ (by simp)

/-- Witness for C9 at a concrete visitor and state. -/
theorem derived_view_shares_queue_witness :
    (withContext c4Visitor [] c4State).1.queueRef = c4Visitor.queueRef
    ∧ (enqueue (withContext c4Visitor [] c4State).1 "pageview" []
          (withContext c4Visitor [] c4State).2).2.queues.getD c4Visitor.queueRef []
        = c4State.queues.getD c4Visitor.queueRef []
          ++ [enqueuedHit (withContext c4Visitor [] c4State).2.config
              (withContext c4Visitor [] c4State).1 "pageview" []]
    ∧ (((withContext c4Visitor [] c4State).2.config.batching = false
          ∨ 0 < (withContext c4Visitor [] c4State).2.config.batchSize) →
        enqueuedHit (withContext c4Visitor [] c4State).2.config
            (withContext c4Visitor [] c4State).1 "pageview" []
          ∈ ((getSendTaskQueue (withContext c4Visitor [] c4State).2.config
              ((enqueue (withContext c4Visitor [] c4State).1 "pageview" []
                (withContext c4Visitor [] c4State).2).2.queues.getD
                c4Visitor.queueRef [])).1.map taskHits).flatten) :=
  derived_view_shares_queue c4Visitor [] "pageview" [] c4State (by decide)

end UA

